import Mathlib

set_option maxRecDepth 4000

/-!
Verification of the Resume Insight API (`src/main.py`) against its
specification.  The Python source is shallowly embedded: every regex used by
the source is translated into an explicit character-scanning function with
Python `re` semantics (leftmost match, alternatives in order, `\b` word
boundaries, case-insensitive matching where the source passes `IGNORECASE`),
strings are `List Char`-based, machine integers are `Nat`, and the rate
limiter is explicit state passing over a timestamp store.  Character-level
case operations use Lean's `Char.toLower`/`Char.toUpper`, which implement
exactly the ASCII case mapping; this models Python's `str.lower`/`str.upper`
/`re.IGNORECASE` on the ASCII alphabet, which covers every keyword pattern in
the source.
-/

namespace VibeResume

/-! ### Character utilities -/

/-- Python `\w` (word character) on ASCII: letters, digits, underscore. -/
def wordChar (c : Char) : Bool :=
  let n := c.toNat
  (65 ≤ n && n ≤ 90) || (97 ≤ n && n ≤ 122) || (48 ≤ n && n ≤ 57) || n == 95

/-- ASCII letter test (Python's cased characters, ASCII fragment);
used by the model of Python `str.title`. -/
def asciiAlpha (c : Char) : Bool :=
  let n := c.toNat
  (65 ≤ n && n ≤ 90) || (97 ≤ n && n ≤ 122)

/-- Case-insensitive character comparison (`re.IGNORECASE` on ASCII). -/
def caseEq (a b : Char) : Bool := a.toLower == b.toLower

/-- Python `str.title` on a character list: a cased character is uppercased
when the previous character is not cased, lowercased otherwise. -/
def pyTitleGo (prevAlpha : Bool) : List Char → List Char
  | [] => []
  | c :: cs =>
    if asciiAlpha c then
      (if prevAlpha then c.toLower else c.toUpper) :: pyTitleGo true cs
    else
      c :: pyTitleGo false cs

def pyTitle (s : List Char) : List Char := pyTitleGo false s

/-- Python `str.strip`: drop whitespace at both ends. -/
def pyStrip (s : List Char) : List Char :=
  ((s.dropWhile Char.isWhitespace).reverse.dropWhile Char.isWhitespace).reverse

/-- Substring containment, Python's `needle in hay`. -/
def containsSeq (nd : List Char) : List Char → Bool
  | [] => nd.isEmpty
  | c :: cs => nd.isPrefixOf (c :: cs) || containsSeq nd cs

/-- Python `needle in text.lower()` for an already-lowercase needle. -/
def containsLower (text : String) (w : String) : Bool :=
  containsSeq w.data (text.data.map Char.toLower)

/-! ### A faithful scanner for the source's keyword regexes

Every skill pattern in the source has the shape `\b(lit1|lit2|...)\b` with
fixed-width literal alternatives, matched with `re.IGNORECASE` and collected
with `re.findall` (which returns the group, i.e. the matched literal slice).
`tryAlts` implements one match attempt at a position (alternatives tried in
order, both `\b` checks), `scanFuel` implements the left-to-right
non-overlapping scan of `findall`.  `prevW` is the word-character status of
the character before the current position (`false` at the start of the
string, matching `\b` against the string edge). -/

/-- `\b` between a previous character of word-status `prevW` and the head of
`s` (the end of the string counts as a non-word character). -/
def boundary (prevW : Bool) (s : List Char) : Bool :=
  prevW != (match s with | [] => false | c :: _ => wordChar c)

/-- Is `lit` a case-insensitive prefix of `s`? -/
def matchCI : List Char → List Char → Bool
  | [], _ => true
  | _ :: _, [] => false
  | a :: as, b :: bs => caseEq a b && matchCI as bs

/-- Word-status of the last character of a list (`dflt` for `[]`). -/
def lastWord (dflt : Bool) (s : List Char) : Bool :=
  match s.getLast? with
  | some c => wordChar c
  | none => dflt

/-- Try the alternatives of a `\b(...)\b` group at the current position,
in order; returns the matching alternative (whose length equals the length
of the matched slice). -/
def tryAlts (prevW : Bool) (s : List Char) : List (List Char) → Option (List Char)
  | [] => none
  | a :: as =>
    if boundary prevW s && matchCI a s && boundary (lastWord prevW a) (s.drop a.length) then
      some a
    else
      tryAlts prevW s as

/-- `re.findall` scan: at each position try a match; on success record the
matched slice and continue after it, otherwise advance one character.
`fuel` bounds the recursion (use `s.length`); each step consumes at least
one character, so the fuel is sufficient. -/
def scanFuel (p : List (List Char)) : Nat → Bool → List Char → List (List Char)
  | 0, _, _ => []
  | _ + 1, _, [] => []
  | fuel + 1, prevW, c :: cs =>
    match tryAlts prevW (c :: cs) p with
    | some a =>
      let slice := (c :: cs).take a.length
      slice :: scanFuel p fuel (lastWord prevW slice) ((c :: cs).drop (a.length.max 1))
    | none => scanFuel p fuel (wordChar c) cs

def scanP (p : List (List Char)) (s : List Char) : List (List Char) :=
  scanFuel p s.length false s

/-! ### `extract_skills` -/

def skillAlts1 : List (List Char) :=
  ["Python".data, "JavaScript".data, "TypeScript".data, "Java".data, "C++".data,
   "C#".data, "Go".data, "Rust".data, "Ruby".data, "PHP".data, "Swift".data,
   "Kotlin".data]

def skillAlts2 : List (List Char) :=
  ["React".data, "Vue".data, "Angular".data, "Node.js".data, "Django".data,
   "Flask".data, "FastAPI".data, "Spring".data, "Rails".data]

def skillAlts3 : List (List Char) :=
  ["AWS".data, "Azure".data, "GCP".data, "Docker".data, "Kubernetes".data,
   "Terraform".data, "CI/CD".data]

def skillAlts4 : List (List Char) :=
  ["PostgreSQL".data, "MySQL".data, "MongoDB".data, "Redis".data,
   "Elasticsearch".data]

def skillAlts5 : List (List Char) :=
  ["Machine Learning".data, "AI".data, "Deep Learning".data, "NLP".data,
   "Computer Vision".data]

def skillAlts6 : List (List Char) :=
  ["Agile".data, "Scrum".data, "Project Management".data, "Leadership".data,
   "Communication".data]

def skillAlts7 : List (List Char) :=
  ["Git".data, "Linux".data, "REST API".data, "GraphQL".data,
   "Microservices".data]

def skillPatterns : List (List (List Char)) :=
  [skillAlts1, skillAlts2, skillAlts3, skillAlts4, skillAlts5, skillAlts6,
   skillAlts7]

/-- `m.title() if len(m) > 3 else m.upper()`. -/
def normSkill (m : List Char) : List Char :=
  if 3 < m.length then pyTitle m else m.map Char.toUpper

/-- `extract_skills`: union over the seven patterns of the normalized
`findall` matches, deduplicated (the source collects them in a Python `set`,
whose iteration order is unspecified; `dedup` fixes one order), capped at
20 entries. -/
def extract_skills (text : String) : List String :=
  (((skillPatterns.map fun p => (scanP p text.data).map fun m =>
      String.mk (normSkill m)).flatten).dedup).take 20

/-! ### `estimate_experience` -/

def natOfDigits (d : List Char) : Nat :=
  d.foldl (fun n c => n * 10 + (c.toNat - 48)) 0

/-- `\s*`. -/
def skipWs (s : List Char) : List Char := s.dropWhile Char.isWhitespace

/-- Optional single character (`c?` in a regex), by predicate. -/
def optP (f : Char → Bool) : List Char → List Char
  | [] => []
  | x :: xs => if f x then xs else x :: xs

/-- Match `(\d+)\+?\s*years?\s*(of)?\s*experience` at the current position
(group 1 as a number).  The regex is greedy and, as the trailing
alternatives cannot overlap, needs no backtracking beyond the explicit
`(of)?` disjunction below. -/
def matchYears1At (s : List Char) : Option Nat :=
  let d := s.takeWhile Char.isDigit
  if d.isEmpty then none else
    let r2 := skipWs (optP (· == '+') (s.dropWhile Char.isDigit))
    if matchCI "year".data r2 then
      let r4 := skipWs (optP (caseEq 's') (r2.drop 4))
      if (matchCI "of".data r4 && matchCI "experience".data (skipWs (r4.drop 2)))
          || matchCI "experience".data r4 then
        some (natOfDigits d)
      else none
    else none

/-- Match `experience[:\s]+(\d+)\s*years?` at the current position. -/
def matchYears2At (s : List Char) : Option Nat :=
  if matchCI "experience".data s then
    let r := s.drop 10
    let sep := r.takeWhile fun c => c == ':' || c.isWhitespace
    if sep.isEmpty then none else
      let r1 := r.dropWhile fun c => c == ':' || c.isWhitespace
      let d := r1.takeWhile Char.isDigit
      if d.isEmpty then none else
        if matchCI "year".data (skipWs (r1.dropWhile Char.isDigit)) then
          some (natOfDigits d)
        else none
  else none

/-- Match `(\d+)\+?\s*years?` at the current position (used on the job
description in `match_resume_ai`). -/
def matchYearsShortAt (s : List Char) : Option Nat :=
  let d := s.takeWhile Char.isDigit
  if d.isEmpty then none else
    let r2 := skipWs (optP (· == '+') (s.dropWhile Char.isDigit))
    if matchCI "year".data r2 then some (natOfDigits d) else none

/-- `re.search`: leftmost position where the pattern matches. -/
def searchOpt (f : List Char → Option Nat) : List Char → Option Nat
  | [] => none
  | c :: cs =>
    match f (c :: cs) with
    | some n => some n
    | none => searchOpt f cs

/-- `re.findall(r'20\d{2}', text)` as numbers (the source compares the
matched 4-character strings with `max`/`min`, which on `20xx`-shaped strings
agrees with numeric comparison). -/
def findYears : List Char → List Nat
  | '2' :: '0' :: a :: b :: rest =>
    if a.isDigit && b.isDigit then
      (2000 + 10 * (a.toNat - 48) + (b.toNat - 48)) :: findYears rest
    else findYears ('0' :: a :: b :: rest)
  | _ :: cs => findYears cs
  | [] => []

def maxList : List Nat → Nat
  | [] => 0
  | y :: ys => ys.foldl Nat.max y

def minList : List Nat → Nat
  | [] => 0
  | y :: ys => ys.foldl Nat.min y

/-- `estimate_experience`. -/
def estimate_experience (text : String) : Nat :=
  match searchOpt matchYears1At text.data with
  | some n => min n 30
  | none =>
    match searchOpt matchYears2At text.data with
    | some n => min n 30
    | none =>
      let ys := findYears text.data
      if 2 ≤ ys.length then min (max (maxList ys - minList ys) 1) 20 else 2

/-! ### `extract_education`

Pattern 1 is
`(Bachelor'?s?|Master'?s?|PhD|Ph\.D|MBA|B\.S\.|M\.S\.|B\.A\.|M\.A\.)[^,\n]*(?:in\s+)?([A-Za-z\s]+)?`.
The group `(Bachelor'?s?)` with its greedy optional characters is expanded
into the four alternatives it can match, longest first, which reproduces the
greedy behaviour; likewise for `Master'?s?`.  After the degree group, the
greedy `[^,\n]*` stops at a comma, a newline or the end of the string; at
such a position `(?:in\s+)?` can never match (its first character `i` is
excluded), so it always matches empty and is omitted here; `([A-Za-z\s]+)?`
(group 2) can match only when the stop character is a newline (`\s` includes
newlines). -/

def apos : Char := Char.ofNat 39

def degreeAlts : List (List Char) :=
  [('B' :: 'a' :: 'c' :: 'h' :: 'e' :: 'l' :: 'o' :: 'r' :: apos :: ['s']),
   ('B' :: 'a' :: 'c' :: 'h' :: 'e' :: 'l' :: 'o' :: 'r' :: [apos]),
   "Bachelors".data, "Bachelor".data,
   ('M' :: 'a' :: 's' :: 't' :: 'e' :: 'r' :: apos :: ['s']),
   ('M' :: 'a' :: 's' :: 't' :: 'e' :: 'r' :: [apos]),
   "Masters".data, "Master".data,
   "PhD".data, "Ph.D".data, "MBA".data,
   "B.S.".data, "M.S.".data, "B.A.".data, "M.A.".data]

def instAlts : List (List Char) :=
  ["University".data, "College".data, "Institute".data]

/-- First alternative that matches case-insensitively at the head of `s`
(no `\b` in the education patterns). -/
def firstAlt (s : List Char) : List (List Char) → Option (List Char)
  | [] => none
  | a :: as => if matchCI a s then some a else firstAlt s as

def notStop (c : Char) : Bool := !(c == ',' || c == '\n')

def g2Char (c : Char) : Bool := asciiAlpha c || c.isWhitespace

/-- One education-pattern-1 match attempt: returns the produced education
entry (`" ".join((group1, group2)).strip()`) and the total match length. -/
def matchEdu1At (s : List Char) : Option (List Char × Nat) :=
  match firstAlt s degreeAlts with
  | none => none
  | some a =>
    let g1 := s.take a.length
    let rest := s.drop a.length
    let tail1 := rest.takeWhile notStop
    let rest2 := rest.dropWhile notStop
    let g2 := rest2.takeWhile g2Char
    some (pyStrip (g1 ++ ' ' :: g2), a.length + tail1.length + g2.length)

/-- One education-pattern-2 match attempt: `(University|College|Institute)`
followed by at least one `[^,\n]` character; `findall` returns group 1. -/
def matchEdu2At (s : List Char) : Option (List Char × Nat) :=
  match firstAlt s instAlts with
  | none => none
  | some a =>
    let tail1 := (s.drop a.length).takeWhile notStop
    if tail1.isEmpty then none
    else some (pyStrip (s.take a.length), a.length + tail1.length)

/-- `re.findall` for the education patterns (non-overlapping left-to-right
scan; matches are at least one character long so `s.length` fuel is
sufficient). -/
def scanEduFuel (f : List Char → Option (List Char × Nat)) :
    Nat → List Char → List (List Char)
  | 0, _ => []
  | _ + 1, [] => []
  | fuel + 1, c :: cs =>
    match f (c :: cs) with
    | some (e, n) => e :: scanEduFuel f fuel ((c :: cs).drop (n.max 1))
    | none => scanEduFuel f fuel cs

def scanEdu (f : List Char → Option (List Char × Nat)) (s : List Char) :
    List (List Char) :=
  scanEduFuel f s.length s

/-- `extract_education`: first three matches of each pattern, overall capped
at three entries, `["Not specified"]` when nothing matches. -/
def extract_education (text : String) : List String :=
  let e1 := ((scanEdu matchEdu1At text.data).take 3).map String.mk
  let e2 := ((scanEdu matchEdu2At text.data).take 3).map String.mk
  let education := e1 ++ e2
  if education.isEmpty then ["Not specified"] else education.take 3

/-! ### `analyze_resume_ai` -/

structure AnalysisResponse where
  skills : List String
  experience_years : Nat
  education : List String
  strengths : List String
  gaps : List String
  improvements : List String
  overall_score : Nat
  summary : String
deriving DecidableEq

/-- `xs or dflt` in Python (list truthiness). -/
def orDefault (xs dflt : List String) : List String :=
  if xs.isEmpty then dflt else xs

def analyze_resume_ai (text : String) : AnalysisResponse :=
  let skills := extract_skills text
  let experience := estimate_experience text
  let education := extract_education text
  let base_score :=
    50 + min (skills.length * 3) 20 + min (experience * 2) 15
      + (if education.headD "Not specified" ≠ "Not specified" then 5 else 0)
      + (if 500 < text.length then 5 else 0)
      + (if 1500 < text.length then 5 else 0)
  let strengths :=
    (if 5 ≤ skills.length then ["Strong technical skill set"] else [])
      ++ (if 3 ≤ experience then
            ["Solid " ++ toString experience ++ " years of experience"] else [])
      ++ (if containsLower text "lead" || containsLower text "manage" then
            ["Leadership experience indicated"] else [])
      ++ (if containsLower text "achieved" || containsLower text "increased"
            || containsLower text "reduced" || containsLower text "delivered" then
            ["Good use of action verbs and metrics"] else [])
  let gaps :=
    (if 5 ≤ skills.length then [] else ["Limited technical skills listed"])
      ++ (if containsLower text "lead" || containsLower text "manage" then []
          else ["No leadership experience mentioned"])
      ++ (if containsLower text "achieved" || containsLower text "increased"
            || containsLower text "reduced" || containsLower text "delivered" then []
          else ["Lacks quantifiable achievements"])
      ++ (if text.length < 300 then ["Resume appears too short"] else [])
  let improvements :=
    (if 5 ≤ skills.length then []
     else ["Add more specific technical skills with proficiency levels"])
      ++ (if 3 ≤ experience then []
          else ["Emphasize projects and achievements to compensate for experience"])
      ++ (if containsLower text "lead" || containsLower text "manage" then []
          else ["Highlight any team leadership or mentoring experience"])
      ++ (if containsLower text "achieved" || containsLower text "increased"
            || containsLower text "reduced" || containsLower text "delivered" then []
          else ["Add metrics: " ++ String.mk [apos] ++ "Increased X by Y%"
                ++ String.mk [apos] ++ " or " ++ String.mk [apos]
                ++ "Reduced Z by N hours" ++ String.mk [apos]])
      ++ (if text.length < 300 then
            ["Expand with more details about responsibilities and achievements"]
          else [])
  { skills := skills
    experience_years := experience
    education := education
    strengths := orDefault strengths ["Good foundation"]
    gaps := orDefault gaps ["None identified"]
    improvements := orDefault improvements ["Continue building experience"]
    overall_score := min base_score 100
    summary :=
      "Resume shows " ++ toString experience ++ " years of experience with "
        ++ toString skills.length ++ " key skills. "
        ++ (if 70 ≤ base_score then "Strong candidate for mid-senior roles."
            else "Good foundation, room for improvement.") }

/-! ### `match_resume_ai` -/

structure MatchResponse where
  fit_score : Nat
  matching_skills : List String
  missing_skills : List String
  recommendations : List String
  verdict : String
deriving DecidableEq

/-- Python `s.lower()` (ASCII model). -/
def strLower (s : String) : String := String.mk (s.data.map Char.toLower)

def pyTitleStr (s : String) : String := String.mk (pyTitle s.data)

/-- `match_resume_ai`.  The source computes
`int((len(matching) / len(job_skills)) * 100)` in floating point; for all
`0 ≤ m ≤ j ≤ 20` (skill lists are capped at 20) the double-precision value
truncates to exactly `(m * 100) / j` in integer division, so the embedding
uses `Nat` division.  `max(fit_score - 10, 0)` is `Nat` truncated
subtraction.  The source stores skills in Python sets; the embedding uses
deduplicated lists, which have the same cardinalities and membership. -/
def match_resume_ai (resume job_desc : String) : MatchResponse :=
  let resume_skills := ((extract_skills resume).map strLower).dedup
  let job_skills := ((extract_skills job_desc).map strLower).dedup
  let matching := job_skills.filter (fun s => s ∈ resume_skills)
  let missing := job_skills.filter (fun s => s ∉ resume_skills)
  let fit0 : Nat :=
    if job_skills.isEmpty then 50 else (matching.length * 100) / job_skills.length
  let fit :=
    match searchOpt matchYearsShortAt job_desc.data with
    | none => fit0
    | some required => if required ≤ estimate_experience resume
                       then min (fit0 + 10) 100 else fit0 - 10
  let recommendations :=
    (if missing.isEmpty then []
     else ["Consider gaining experience in: "
            ++ String.intercalate ", " (missing.take 5)])
      ++ (if fit < 50 then
            ["This role may require skills you don" ++ String.mk [apos]
              ++ "t have yet"] else [])
      ++ (if 70 ≤ fit then
            ["Customize your resume to emphasize matching skills"] else [])
  { fit_score := fit
    matching_skills := matching.map pyTitleStr
    missing_skills := (missing.take 10).map pyTitleStr
    recommendations :=
      orDefault recommendations ["Tailor your application to the specific role"]
    verdict :=
      if 80 ≤ fit then "Excellent match! Apply with confidence."
      else if 60 ≤ fit then
        "Good match. Highlight relevant experience in your application."
      else if 40 ≤ fit then
        "Moderate match. Consider upskilling or emphasizing transferable skills."
      else "Low match. This role may require significant skill development." }

/-! ### `improve_resume_ai` -/

structure Suggestion where
  sectionName : String
  issue : String
  fix : String
  exampleText : String
deriving DecidableEq

structure ImproveResponse where
  suggestions : List Suggestion
  rewritten_sections : List (String × String)
  action_items : List String
  priority_order : List String
deriving DecidableEq

/-- One alternative of `\d+%|\$\d+|\d+x` matches at the head of `s`
(case-sensitive; the source passes no flags here).  The `\d+` runs are
greedy; giving digits back can never turn a failure into a success because
`%` and `x` are not digits, so maximal runs suffice. -/
def hasMetricAt (s : List Char) : Bool :=
  let d := s.takeWhile Char.isDigit
  let r := s.dropWhile Char.isDigit
  (!d.isEmpty && (r.head? == some '%' || r.head? == some 'x'))
    || (s.head? == some '$'
        && (match s with | _ :: c :: _ => c.isDigit | _ => false))

/-- `re.search(r'\d+%|\$\d+|\d+x', resume)` is truthy. -/
def hasMetric : List Char → Bool
  | [] => false
  | c :: cs => hasMetricAt (c :: cs) || hasMetric cs

/-- Python truthiness of the optional `target_role`. -/
def targetPresent : Option String → Bool
  | none => false
  | some r => !r.isEmpty

def improve_resume_ai (resume : String) (target_role : Option String) :
    ImproveResponse :=
  let suggestions :=
    (if hasMetric resume.data then []
     else [ { sectionName := "Achievements"
              issue := "Lacks quantifiable metrics"
              fix := "Add numbers: percentages, dollar amounts, time saved"
              exampleText := "Instead of " ++ String.mk [apos] ++ "Improved performance"
                ++ String.mk [apos] ++ " â†’ " ++ String.mk [apos]
                ++ "Improved API response time by 40%" ++ String.mk [apos] } ])
      ++ (if resume.length < 500 then
            [ { sectionName := "Overall"
                issue := "Resume is too brief"
                fix := "Expand each role with 3-5 bullet points"
                exampleText := "Include: scope, actions, results for each position" } ]
          else [])
      ++ (if !(containsLower resume "summary") && !(containsLower resume "objective") then
            [ { sectionName := "Summary"
                issue := "Missing professional summary"
                fix := "Add a 2-3 sentence summary at the top"
                exampleText := "Results-driven software engineer with X years of experience in Y, specializing in Z." } ]
          else [])
      ++ (if (extract_skills resume).length < 5 then
            [ { sectionName := "Skills"
                issue := "Skills section needs expansion"
                fix := "List 10-15 relevant skills, organized by category"
                exampleText := "Languages: Python, JavaScript | Frameworks: React, FastAPI | Tools: Docker, AWS" } ]
          else [])
      ++ (if targetPresent target_role then
            [ { sectionName := "Targeting"
                issue := "Optimize for " ++ (target_role.getD "")
                fix := "Research common requirements for " ++ (target_role.getD "")
                  ++ " and align your experience"
                exampleText := "Use keywords from " ++ (target_role.getD "")
                  ++ " job postings in your bullet points" } ]
          else [])
  let rewritten :=
    if !(containsLower resume "summary") && !(containsLower resume "objective") then
      [("summary",
        "Results-driven professional with " ++ toString (estimate_experience resume)
          ++ " years of experience. Skilled in "
          ++ String.intercalate ", " ((extract_skills resume).take 5)
          ++ ". Proven track record of delivering impactful solutions.")]
    else []
  let priorities :=
    (if hasMetric resume.data then [] else ["Add metrics to achievements"])
      ++ (if resume.length < 500 then ["Expand content"] else [])
      ++ (if !(containsLower resume "summary") && !(containsLower resume "objective")
          then ["Add professional summary"] else [])
      ++ (if (extract_skills resume).length < 5 then ["Expand skills section"] else [])
  { suggestions :=
      if suggestions.isEmpty then
        [ { sectionName := "General", issue := "Resume looks solid"
            fix := "Keep it updated", exampleText := "Review quarterly" } ]
      else suggestions
    rewritten_sections := rewritten
    action_items :=
      ["Review each bullet point - does it show impact?",
       "Add 2-3 metrics to your most recent role",
       "Ensure contact info and LinkedIn are current",
       "Get a peer review before applying",
       "Customize for each application"]
    priority_order := if priorities.isEmpty then ["Maintain current quality"]
                      else priorities }

/-! ### Access control and the `/analyze` endpoint

Timestamps are `Nat` microseconds on the process-local clock;
`now.replace(hour=0, minute=0, second=0, microsecond=0)` is `dayStart`.
The `md5(...).hexdigest()[:16]` fingerprint is an abstract deterministic
function parameter.  The quota table (`rate_limits`, a
`defaultdict(list)`) is a total function from client id to timestamp list
defaulting to `[]`; `check_rate_limit` returns the updated table together
with the allow/reject outcome.  Note the source reassigns the pruned list
*before* raising the 429, so rejection also updates the table. -/

def usPerDay : Nat := 86400000000

def dayStart (now : Nat) : Nat := now - now % usPerDay

structure Client where
  id : String
  tier : String
deriving DecidableEq

/-- `x_forwarded_for.split(",")[0]`. -/
def firstToken (s : String) : String :=
  String.mk (s.data.takeWhile (fun c => c ≠ ','))

/-- `get_client_id`; `hash16` models `hashlib.md5(ip).hexdigest()[:16]`.
Python's `if x_api_key and x_api_key in PRO_KEYS` requires a non-empty key. -/
def get_client_id (hash16 : String → String) (proKeys : List String)
    (x_api_key : Option String) (x_forwarded_for : Option String) : Client :=
  match x_api_key with
  | some k =>
    if k ≠ "" ∧ k ∈ proKeys then { id := k, tier := "pro" }
    else
      { id := hash16 (match x_forwarded_for with
                      | some f => if f = "" then "unknown" else firstToken f
                      | none => "unknown")
        tier := "free" }
  | none =>
    { id := hash16 (match x_forwarded_for with
                    | some f => if f = "" then "unknown" else firstToken f
                    | none => "unknown")
      tier := "free" }

structure QuotaDetail where
  error : String
  upgrade_url : String
  reset_at : Nat
deriving DecidableEq

def RState : Type := String → List Nat

def updateR (st : RState) (id : String) (v : List Nat) : RState :=
  fun x => if x = id then v else st x

def check_rate_limit (client : Client) (now : Nat) (st : RState) :
    RState × Except QuotaDetail Client :=
  if client.tier = "pro" then (st, .ok client)
  else
    let ds := dayStart now
    let pruned := (st client.id).filter (fun t => ds < t)
    let st1 := updateR st client.id pruned
    if 3 ≤ pruned.length then
      (st1, .error { error := "Daily limit reached (3/day for free tier)"
                     upgrade_url := "https://vibe-resume-ai.onrender.com/pricing"
                     reset_at := ds + usPerDay })
    else
      (updateR st1 client.id (pruned ++ [now]), .ok client)

inductive ApiError where
  | badRequest (msg : String)
  | tooMany (d : QuotaDetail)
deriving DecidableEq

/-- `POST /analyze`: FastAPI resolves the `check_rate_limit` dependency
before the endpoint body runs, so the quota check (and its table update)
happens before input validation. -/
def analyze_endpoint (client : Client) (now : Nat) (st : RState)
    (text : String) : RState × Except ApiError AnalysisResponse :=
  match check_rate_limit client now st with
  | (st1, .error d) => (st1, .error (.tooMany d))
  | (st1, .ok _) =>
    if (pyStrip text.data).length < 50 then
      (st1, .error (.badRequest "Resume text too short (minimum 50 characters)"))
    else
      (st1, .ok (analyze_resume_ai text))

/-! ### Basic lemmas -/

theorem updateR_self (st : RState) (id : String) (v : List Nat) :
    updateR st id v id = v := by
  simp [updateR]

/-! ### Claim C5: the overall score formula -/

/-- C5: for every input text, `analyze` returns `overall_score` equal to
`50 + min(3*|skills|, 20) + min(2*experience, 15) + (5 if education found)
+ (5 if len > 500) + (5 if len > 1500)`, capped at 100. -/
theorem C5_overall_score_formula (text : String) :
    (analyze_resume_ai text).overall_score
      = min (50 + min (3 * (extract_skills text).length) 20
          + min (2 * estimate_experience text) 15
          + (if (extract_education text).headD "Not specified" ≠ "Not specified"
             then 5 else 0)
          + (if 500 < text.length then 5 else 0)
          + (if 1500 < text.length then 5 else 0)) 100 := by
  simp only [analyze_resume_ai]
  split_ifs <;> omega

/-! ### Claim C2: range of `estimate_experience` -/

/-- C2 counterexample: on `"0 years experience"` the first pattern matches
with `N = 0` and the source returns `min(0, 30) = 0`, outside the claimed
range `[1, 30]`. -/
theorem C2_counterexample :
    estimate_experience "0 years experience" = 0
      ∧ ¬ 1 ≤ estimate_experience "0 years experience" := by
  constructor <;> decide

/-- C2 (amended): `estimate_experience` always returns a value in `[0, 30]`
(an explicit `"0 years experience"` phrase yields 0, so 1 is not a lower
bound), and it returns 2 when neither experience pattern matches and fewer
than two `20xx` years occur. -/
theorem C2_estimate_experience_range (text : String) :
    estimate_experience text ≤ 30
      ∧ (searchOpt matchYears1At text.data = none →
         searchOpt matchYears2At text.data = none →
         (findYears text.data).length < 2 →
         estimate_experience text = 2) := by
  constructor
  · unfold estimate_experience
    cases searchOpt matchYears1At text.data with
    | some n => simp
    | none =>
      cases searchOpt matchYears2At text.data with
      | some n => simp
      | none =>
        simp only
        split_ifs
        · have := Nat.min_le_right (max (maxList (findYears text.data)
            - minList (findYears text.data)) 1) 20
          omega
        · omega
  · intro h1 h2 h3
    unfold estimate_experience
    rw [h1, h2]
    exact if_neg (by omega)

theorem C2_witness :
    estimate_experience "hello" ≤ 30 ∧ estimate_experience "hello" = 2 :=
  ⟨(C2_estimate_experience_range "hello").1,
   (C2_estimate_experience_range "hello").2 (by decide) (by decide) (by decide)⟩

/-! ### Claim C9: pro tier is never rate limited -/

/-- C9: an identity presenting a non-empty key from the privileged-key set
is classified as pro tier, and the quota check always allows it (leaving the
quota table untouched), for any request count and table state — so such a
client never receives a 429. -/
theorem C9_pro_tier_never_limited (hash16 : String → String)
    (proKeys : List String) (k : String) (fwd : Option String)
    (now : Nat) (st : RState) (hk : k ≠ "") (hmem : k ∈ proKeys) :
    (get_client_id hash16 proKeys (some k) fwd).tier = "pro"
      ∧ check_rate_limit (get_client_id hash16 proKeys (some k) fwd) now st
          = (st, .ok (get_client_id hash16 proKeys (some k) fwd)) := by
  have hc : get_client_id hash16 proKeys (some k) fwd
      = { id := k, tier := "pro" } := by
    simp [get_client_id, hk, hmem]
  rw [hc]
  exact ⟨rfl, by simp [check_rate_limit]⟩

theorem C9_witness :
    (get_client_id (fun s => s) ["secret-key"] (some "secret-key") none).tier
        = "pro"
      ∧ check_rate_limit
          (get_client_id (fun s => s) ["secret-key"] (some "secret-key") none)
          77 (fun _ => [1, 2, 3, 4, 5])
        = ((fun _ => [1, 2, 3, 4, 5]),
           .ok (get_client_id (fun s => s) ["secret-key"] (some "secret-key") none)) :=
  C9_pro_tier_never_limited (fun s => s) ["secret-key"] "secret-key" none
    77 (fun _ => [1, 2, 3, 4, 5]) (by decide) (by decide)

/-! ### Rate-limiter step lemmas -/

theorem check_free_ok {id tier : String} {now : Nat} {st : RState} {l : List Nat}
    (htier : tier ≠ "pro")
    (hl : (st id).filter (fun t => dayStart now < t) = l) (h3 : l.length < 3) :
    check_rate_limit ⟨id, tier⟩ now st
      = (updateR (updateR st id l) id (l ++ [now]), .ok ⟨id, tier⟩) := by
  simp only [check_rate_limit]
  rw [if_neg htier]
  simp only [hl]
  rw [if_neg (Nat.not_le.mpr h3)]

theorem check_free_err {id tier : String} {now : Nat} {st : RState} {l : List Nat}
    (htier : tier ≠ "pro")
    (hl : (st id).filter (fun t => dayStart now < t) = l) (h3 : 3 ≤ l.length) :
    check_rate_limit ⟨id, tier⟩ now st
      = (updateR st id l,
         .error { error := "Daily limit reached (3/day for free tier)"
                  upgrade_url := "https://vibe-resume-ai.onrender.com/pricing"
                  reset_at := dayStart now + usPerDay }) := by
  simp only [check_rate_limit]
  rw [if_neg htier]
  simp only [hl]
  rw [if_pos h3]

theorem endpoint_state (client : Client) (now : Nat) (st : RState)
    (text : String) :
    (analyze_endpoint client now st text).1 = (check_rate_limit client now st).1 := by
  unfold analyze_endpoint
  rcases h : check_rate_limit client now st with ⟨st1, r⟩
  cases r
  · rfl
  · simp only
    split_ifs <;> rfl

/-- Shared evaluation of four same-day free-tier quota checks starting from
a record with no timestamp after the day start. -/
theorem quota_chain (id : String) (st0 : RState) (t1 t2 t3 t4 : Nat)
    (h0 : ∀ t ∈ st0 id, t ≤ dayStart t1)
    (h2 : dayStart t2 = dayStart t1) (h3 : dayStart t3 = dayStart t1)
    (h4 : dayStart t4 = dayStart t1)
    (p1 : dayStart t1 < t1) (p2 : dayStart t1 < t2) (p3 : dayStart t1 < t3) :
    ∃ S1 S2 S3 S4 : RState,
      check_rate_limit ⟨id, "free"⟩ t1 st0 = (S1, .ok ⟨id, "free"⟩)
        ∧ check_rate_limit ⟨id, "free"⟩ t2 S1 = (S2, .ok ⟨id, "free"⟩)
        ∧ check_rate_limit ⟨id, "free"⟩ t3 S2 = (S3, .ok ⟨id, "free"⟩)
        ∧ check_rate_limit ⟨id, "free"⟩ t4 S3 = (S4,
            .error { error := "Daily limit reached (3/day for free tier)"
                     upgrade_url := "https://vibe-resume-ai.onrender.com/pricing"
                     reset_at := dayStart t1 + usPerDay }) := by
  have hfree : ("free" : String) ≠ "pro" := by decide
  have f1 : (st0 id).filter (fun t => dayStart t1 < t) = [] :=
    List.filter_eq_nil_iff.mpr fun t ht => by
      simpa using Nat.not_lt.mpr (h0 t ht)
  have e1 := check_free_ok hfree f1 (by simp)
  set S1 := updateR (updateR st0 id []) id ([] ++ [t1]) with hS1
  have f2 : (S1 id).filter (fun t => dayStart t2 < t) = [t1] := by
    rw [hS1, updateR_self]
    simp [h2, p1]
  have e2 := check_free_ok hfree f2 (by simp)
  set S2 := updateR (updateR S1 id [t1]) id ([t1] ++ [t2]) with hS2
  have f3 : (S2 id).filter (fun t => dayStart t3 < t) = [t1, t2] := by
    rw [hS2, updateR_self]
    simp [h2, h3, p1, p2]
  have e3 := check_free_ok hfree f3 (by simp)
  set S3 := updateR (updateR S2 id [t1, t2]) id ([t1, t2] ++ [t3]) with hS3
  have f4 : (S3 id).filter (fun t => dayStart t4 < t) = [t1, t2, t3] := by
    rw [hS3, updateR_self]
    simp [h2, h3, h4, p1, p2, p3]
  have e4 := check_free_err hfree f4 (by simp)
  rw [h4] at e4
  exact ⟨S1, S2, S3, _, e1, e2, e3, e4⟩

/-! ### Claim C1: free-tier daily quota -/

/-- C1 counterexample: the source prunes with the *strict* comparison
`t > day_start`, so a request timestamped exactly at midnight
(`now = day_start`, representable since `datetime.now()` has microsecond
granularity and the day starts at microsecond 0) is recorded but dropped by
every later pruning.  Four requests all at the exact midnight instant are
therefore all allowed: the fourth is *not* rejected, refuting the claim for
requests "within one calendar day" that fall on the first instant of the day. -/
theorem C1_counterexample :
    (check_rate_limit ⟨"c", "free"⟩ 0
      (check_rate_limit ⟨"c", "free"⟩ 0
        (check_rate_limit ⟨"c", "free"⟩ 0
          (check_rate_limit ⟨"c", "free"⟩ 0 (fun _ => [])).1).1).1).2
      = .ok ⟨"c", "free"⟩ := by
  rfl

/-- C1 (amended): for a free-tier identity with no recorded timestamp after
the start of the current day, four requests in the same calendar day and
*strictly after midnight* behave as claimed: the first three pass, the
fourth is rejected with `reset_at = day_start + 24h` (the next midnight).
Moreover (second conjunct) after any successful request of a free-tier
client the stored timestamps falling within the current day number at most
3. -/
theorem C1_free_tier_daily_quota :
    (∀ (id : String) (st0 : RState) (t1 t2 t3 t4 : Nat),
      (∀ t ∈ st0 id, t ≤ dayStart t1) →
      dayStart t2 = dayStart t1 → dayStart t3 = dayStart t1 →
      dayStart t4 = dayStart t1 →
      dayStart t1 < t1 → dayStart t1 < t2 → dayStart t1 < t3 →
      let c : Client := ⟨id, "free"⟩
      let r1 := check_rate_limit c t1 st0
      let r2 := check_rate_limit c t2 r1.1
      let r3 := check_rate_limit c t3 r2.1
      let r4 := check_rate_limit c t4 r3.1
      r1.2 = .ok c ∧ r2.2 = .ok c ∧ r3.2 = .ok c ∧
        r4.2 = .error { error := "Daily limit reached (3/day for free tier)"
                        upgrade_url := "https://vibe-resume-ai.onrender.com/pricing"
                        reset_at := dayStart t1 + usPerDay })
    ∧ (∀ (client : Client) (now : Nat) (st : RState) (cc : Client),
        client.tier ≠ "pro" →
        (check_rate_limit client now st).2 = .ok cc →
        (((check_rate_limit client now st).1 client.id).filter
            (fun t => dayStart now ≤ t ∧ t < dayStart now + usPerDay)).length ≤ 3) := by
  constructor
  · intro id st0 t1 t2 t3 t4 h0 h2 h3 h4 p1 p2 p3
    obtain ⟨S1, S2, S3, S4, e1, e2, e3, e4⟩ :=
      quota_chain id st0 t1 t2 t3 t4 h0 h2 h3 h4 p1 p2 p3
    simp [e1, e2, e3, e4]
  · intro client now st cc htier hok
    rcases client with ⟨id, tier⟩
    by_cases hrej : 3 ≤ ((st id).filter (fun t => dayStart now < t)).length
    · rw [check_free_err htier rfl hrej] at hok
      exact absurd hok (by simp)
    · rw [check_free_ok htier rfl (Nat.not_le.mp hrej)] at hok ⊢
      simp only [updateR_self]
      calc ((((st id).filter (fun t => dayStart now < t)) ++ [now]).filter
              (fun t => decide (dayStart now ≤ t ∧ t < dayStart now + usPerDay))).length
          ≤ (((st id).filter (fun t => dayStart now < t)) ++ [now]).length :=
            List.length_filter_le _ _
        _ ≤ 3 := by
            rw [List.length_append]
            have := Nat.not_le.mp hrej
            simp only [List.length_cons, List.length_nil]
            omega

theorem C1_witness :
    ((check_rate_limit ⟨"x", "free"⟩ (usPerDay + 1) (fun _ => [])).2
        = .ok ⟨"x", "free"⟩
      ∧ (check_rate_limit ⟨"x", "free"⟩ (usPerDay + 2)
          (check_rate_limit ⟨"x", "free"⟩ (usPerDay + 1) (fun _ => [])).1).2
        = .ok ⟨"x", "free"⟩
      ∧ (check_rate_limit ⟨"x", "free"⟩ (usPerDay + 3)
          (check_rate_limit ⟨"x", "free"⟩ (usPerDay + 2)
            (check_rate_limit ⟨"x", "free"⟩ (usPerDay + 1) (fun _ => [])).1).1).2
        = .ok ⟨"x", "free"⟩
      ∧ (check_rate_limit ⟨"x", "free"⟩ (usPerDay + 4)
          (check_rate_limit ⟨"x", "free"⟩ (usPerDay + 3)
            (check_rate_limit ⟨"x", "free"⟩ (usPerDay + 2)
              (check_rate_limit ⟨"x", "free"⟩ (usPerDay + 1) (fun _ => [])).1).1).1).2
        = .error { error := "Daily limit reached (3/day for free tier)"
                   upgrade_url := "https://vibe-resume-ai.onrender.com/pricing"
                   reset_at := dayStart (usPerDay + 1) + usPerDay })
    ∧ (((check_rate_limit ⟨"y", "free"⟩ 5 (fun _ => [])).1 "y").filter
        (fun t => dayStart 5 ≤ t ∧ t < dayStart 5 + usPerDay)).length ≤ 3 :=
  ⟨C1_free_tier_daily_quota.1 "x" (fun _ => [])
      (usPerDay + 1) (usPerDay + 2) (usPerDay + 3) (usPerDay + 4)
      (by simp) (by decide) (by decide) (by decide)
      (by decide) (by decide) (by decide),
   C1_free_tier_daily_quota.2 ⟨"y", "free"⟩ 5 (fun _ => []) ⟨"y", "free"⟩
      (by decide) (by rfl)⟩

/-! ### Claim C10: quota is consumed before input validation -/

/-- C10: the quota dependency runs (and records the request) before the
endpoint body validates the input.  First conjunct: a free-tier request with
remaining quota whose text is shorter than 50 characters after trimming gets
a 400 *and* its timestamp is appended to the quota record.  Second
conjunct: three such failed requests exhaust the free quota for the day — a
fourth same-day request (with any text) gets a 429. -/
theorem C10_quota_before_validation :
    (∀ (client : Client) (now : Nat) (st : RState) (text : String),
      client.tier ≠ "pro" →
      ((st client.id).filter (fun t => dayStart now < t)).length < 3 →
      (pyStrip text.data).length < 50 →
      (analyze_endpoint client now st text).2
          = .error (.badRequest "Resume text too short (minimum 50 characters)")
        ∧ (analyze_endpoint client now st text).1 client.id
          = (st client.id).filter (fun t => dayStart now < t) ++ [now])
    ∧ (∀ (id : String) (st0 : RState) (t1 t2 t3 t4 : Nat) (s1 s2 s3 v : String),
        (∀ t ∈ st0 id, t ≤ dayStart t1) →
        dayStart t2 = dayStart t1 → dayStart t3 = dayStart t1 →
        dayStart t4 = dayStart t1 →
        dayStart t1 < t1 → dayStart t1 < t2 → dayStart t1 < t3 →
        (pyStrip s1.data).length < 50 → (pyStrip s2.data).length < 50 →
        (pyStrip s3.data).length < 50 →
        let c : Client := ⟨id, "free"⟩
        let e1 := analyze_endpoint c t1 st0 s1
        let e2 := analyze_endpoint c t2 e1.1 s2
        let e3 := analyze_endpoint c t3 e2.1 s3
        (analyze_endpoint c t4 e3.1 v).2
          = .error (.tooMany
              { error := "Daily limit reached (3/day for free tier)"
                upgrade_url := "https://vibe-resume-ai.onrender.com/pricing"
                reset_at := dayStart t1 + usPerDay })) := by
  constructor
  · intro client now st text htier hquota hshort
    rcases client with ⟨id, tier⟩
    have hfree := @check_free_ok id tier now st
        ((st id).filter (fun t => dayStart now < t)) htier rfl hquota
    constructor
    · simp [analyze_endpoint, hfree, hshort]
    · simp [analyze_endpoint, hfree, hshort, updateR_self]
  · intro id st0 t1 t2 t3 t4 s1 s2 s3 v h0 h2 h3 h4 p1 p2 p3 q1 q2 q3
    obtain ⟨S1, S2, S3, S4, e1, e2, e3, e4⟩ :=
      quota_chain id st0 t1 t2 t3 t4 h0 h2 h3 h4 p1 p2 p3
    have u1 : (analyze_endpoint ⟨id, "free"⟩ t1 st0 s1).1 = S1 := by
      rw [endpoint_state, e1]
    have u2 : (analyze_endpoint ⟨id, "free"⟩ t2 S1 s2).1 = S2 := by
      rw [endpoint_state, e2]
    have u3 : (analyze_endpoint ⟨id, "free"⟩ t3 S2 s3).1 = S3 := by
      rw [endpoint_state, e3]
    simp only [u1, u2, u3]
    simp [analyze_endpoint, e4]

theorem C10_witness :
    ((analyze_endpoint ⟨"z", "free"⟩ (usPerDay + 1) (fun _ => []) "short").2
        = .error (.badRequest "Resume text too short (minimum 50 characters)")
      ∧ (analyze_endpoint ⟨"z", "free"⟩ (usPerDay + 1) (fun _ => []) "short").1 "z"
        = (((fun _ => []) : RState) "z").filter
            (fun t => dayStart (usPerDay + 1) < t) ++ [usPerDay + 1])
    ∧ (analyze_endpoint ⟨"z", "free"⟩ (usPerDay + 4)
        (analyze_endpoint ⟨"z", "free"⟩ (usPerDay + 3)
          (analyze_endpoint ⟨"z", "free"⟩ (usPerDay + 2)
            (analyze_endpoint ⟨"z", "free"⟩ (usPerDay + 1)
              (fun _ => []) "a").1 "b").1 "c").1
        ("x".pushn 'x' 60)).2
      = .error (.tooMany
          { error := "Daily limit reached (3/day for free tier)"
            upgrade_url := "https://vibe-resume-ai.onrender.com/pricing"
            reset_at := dayStart (usPerDay + 1) + usPerDay }) :=
  ⟨C10_quota_before_validation.1 ⟨"z", "free"⟩ (usPerDay + 1) (fun _ => [])
      "short" (by decide) (by simp) (by decide),
   C10_quota_before_validation.2 "z" (fun _ => [])
      (usPerDay + 1) (usPerDay + 2) (usPerDay + 3) (usPerDay + 4)
      "a" "b" "c" ("x".pushn 'x' 60)
      (by simp) (by decide) (by decide) (by decide)
      (by decide) (by decide) (by decide)
      (by decide) (by decide) (by decide)⟩

/-! ### Claim C3: matching a text against itself -/

/-- C3 counterexample: for `text = "Python 50 years"` the job skill set is
non-empty (`{python}`), but the job description contains the `"50 years"`
phrase while the estimated resume experience is the default 2, so the
source subtracts 10 and `match(text, text)` returns 90, not 100. -/
theorem C3_counterexample :
    extract_skills "Python 50 years" ≠ []
      ∧ (match_resume_ai "Python 50 years" "Python 50 years").fit_score = 90 := by
  constructor
  · decide
  · decide

/-- C3 (amended): `match(text, text)` always returns an empty missing set;
when the extracted job skill set is non-empty, the fit score is 100 unless
the text itself contains an `"N years"` phrase with `N` greater than the
text's estimated experience, in which case the experience adjustment makes
it 90. -/
theorem C3_match_self (text : String) :
    (match_resume_ai text text).missing_skills = []
      ∧ (extract_skills text ≠ [] →
         (match_resume_ai text text).fit_score
           = match searchOpt matchYearsShortAt text.data with
             | none => 100
             | some req => if req ≤ estimate_experience text then 100 else 90) := by
  have hmatch : (((extract_skills text).map strLower).dedup).filter
      (fun s => s ∈ ((extract_skills text).map strLower).dedup)
      = ((extract_skills text).map strLower).dedup :=
    List.filter_eq_self.mpr fun a ha => by simpa using ha
  have hmiss : (((extract_skills text).map strLower).dedup).filter
      (fun s => s ∉ ((extract_skills text).map strLower).dedup) = [] :=
    List.filter_eq_nil_iff.mpr fun a ha => by simpa using ha
  refine ⟨by simp [match_resume_ai, hmiss], fun hne => ?_⟩
  have hlen : ((extract_skills text).map strLower).dedup ≠ [] := by
    intro h
    exact hne (List.map_eq_nil_iff.mp ((List.dedup_eq_nil _).mp h))
  have hpos : 0 < (((extract_skills text).map strLower).dedup).length :=
    List.length_pos.mpr hlen
  have hfit : ((((extract_skills text).map strLower).dedup).length * 100)
      / (((extract_skills text).map strLower).dedup).length = 100 := by
    rw [Nat.mul_comm]
    exact Nat.mul_div_cancel 100 hpos
  simp only [match_resume_ai, hmatch, hmiss, List.isEmpty_iff, hlen,
    if_false, hfit]
  cases searchOpt matchYearsShortAt text.data with
  | none => rfl
  | some req =>
    by_cases hreq : req ≤ estimate_experience text <;> simp [hreq]

theorem C3_witness :
    extract_skills "Python developer" ≠ []
      ∧ (match_resume_ai "Python developer" "Python developer").fit_score = 100 :=
  ⟨by decide, by
    have h := (C3_match_self "Python developer").2 (by decide)
    simpa using h⟩

/-! ### Claim C4: the fit-score formula -/

/-- Rounding to the nearest integer (half rounds up); this renders the
claim's `round(100 * m / j)`.  (Python's `round` rounds ties to even, but
the counterexample value `200/3` is not a tie.) -/
def roundNat (a b : Nat) : Nat := (2 * a + b) / (2 * b)

/-- C4 counterexample: resume `{python, java}` against job
`{python, java, rust}` gives `|matching| = 2`, `|job| = 3`; the source
truncates `(2/3)*100` to 66, while the claimed `round` gives 67. -/
theorem C4_counterexample :
    (match_resume_ai "Python and Java here" "Python Java Rust").matching_skills.length = 2
      ∧ (((extract_skills "Python Java Rust").map strLower).dedup).length = 3
      ∧ searchOpt matchYearsShortAt "Python Java Rust".data = none
      ∧ (match_resume_ai "Python and Java here" "Python Java Rust").fit_score = 66
      ∧ roundNat (2 * 100) 3 = 67 := by
  refine ⟨by decide, by decide, by decide, by decide, by decide⟩

/-- C4 (amended): the base fit score is the *floor* (Python `int`
truncation) of `100 * |matching| / |job_skills|` when the job skill set is
non-empty, else 50; an `"N years"` phrase in the job description then adds
10 (capped at 100) when the resume's estimated experience reaches `N` and
subtracts 10 (floored at 0, via truncated subtraction) otherwise; the final
fit score always lies in `[0, 100]`. -/
theorem C4_fit_score_floor (resume job : String) :
    (match_resume_ai resume job).fit_score
      = (match searchOpt matchYearsShortAt job.data with
         | none =>
           if (((extract_skills job).map strLower).dedup).isEmpty then 50
           else (((((extract_skills job).map strLower).dedup).filter
               (fun s => s ∈ ((extract_skills resume).map strLower).dedup)).length * 100)
             / (((extract_skills job).map strLower).dedup).length
         | some req =>
           if req ≤ estimate_experience resume then
             min ((if (((extract_skills job).map strLower).dedup).isEmpty then 50
                   else (((((extract_skills job).map strLower).dedup).filter
                       (fun s => s ∈ ((extract_skills resume).map strLower).dedup)).length * 100)
                     / (((extract_skills job).map strLower).dedup).length) + 10) 100
           else
             (if (((extract_skills job).map strLower).dedup).isEmpty then 50
              else (((((extract_skills job).map strLower).dedup).filter
                  (fun s => s ∈ ((extract_skills resume).map strLower).dedup)).length * 100)
                / (((extract_skills job).map strLower).dedup).length) - 10)
      ∧ (match_resume_ai resume job).fit_score ≤ 100 := by
  have hbase : (if (((extract_skills job).map strLower).dedup).isEmpty then 50
      else (((((extract_skills job).map strLower).dedup).filter
          (fun s => s ∈ ((extract_skills resume).map strLower).dedup)).length * 100)
        / (((extract_skills job).map strLower).dedup).length) ≤ 100 := by
    split_ifs with h
    · omega
    · have hpos : 0 < (((extract_skills job).map strLower).dedup).length := by
        rcases Nat.eq_zero_or_pos (((extract_skills job).map strLower).dedup).length
          with h0 | h0
        · exact absurd (List.isEmpty_iff.mpr (List.length_eq_zero.mp h0)) (by simpa using h)
        · exact h0
      calc (((((extract_skills job).map strLower).dedup).filter
              (fun s => s ∈ ((extract_skills resume).map strLower).dedup)).length * 100)
            / (((extract_skills job).map strLower).dedup).length
          ≤ ((((extract_skills job).map strLower).dedup).length * 100)
            / (((extract_skills job).map strLower).dedup).length :=
            Nat.div_le_div_right (Nat.mul_le_mul_right 100 (List.length_filter_le _ _))
        _ = 100 := by rw [Nat.mul_comm]; exact Nat.mul_div_cancel 100 hpos
  constructor
  · rfl
  · show (match_resume_ai resume job).fit_score ≤ 100
    simp only [match_resume_ai]
    cases searchOpt matchYearsShortAt job.data with
    | none => exact hbase
    | some req =>
      by_cases hreq : req ≤ estimate_experience resume
      · simp only [hreq, if_true]
        exact Nat.min_le_right _ 100
      · simp only [hreq, if_false]
        exact le_trans (Nat.sub_le _ _) hbase

/-! ### Claim C6: rule contributions to strengths / gaps / improvements -/

/-- C6 counterexample: on the text `"hi"` the experience rule (estimate 2,
below 3) appends an improvement but *no* gap, so there are 4 gaps and 5
improvements — under the claim every rule contributes either a strength or
a gap with a paired improvement, which would force these counts to be
equal. -/
theorem C6_counterexample :
    (analyze_resume_ai "hi").gaps.length = 4
      ∧ (analyze_resume_ai "hi").improvements.length = 5
      ∧ (analyze_resume_ai "hi").gaps.length
          ≠ (analyze_resume_ai "hi").improvements.length := by
  refine ⟨by decide, by decide, by decide⟩

/-- C6 (amended): the skill-count, leadership and action-verb rules each
contribute exactly one strength or exactly one gap with a paired
improvement; the experience rule contributes a strength when the estimate
is at least 3 and otherwise only an improvement (no gap); the brevity rule
(length < 300) contributes a gap with a paired improvement when triggered
and nothing otherwise.  Expressed on the final response (whose empty
categories are replaced by one-element defaults), the list lengths are
exactly the rule counts below. -/
theorem C6_rule_contributions (text : String) :
    (analyze_resume_ai text).strengths.length
        = max ((if 5 ≤ (extract_skills text).length then 1 else 0)
            + (if 3 ≤ estimate_experience text then 1 else 0)
            + (if containsLower text "lead" || containsLower text "manage" then 1 else 0)
            + (if containsLower text "achieved" || containsLower text "increased"
                 || containsLower text "reduced" || containsLower text "delivered"
               then 1 else 0)) 1
      ∧ (analyze_resume_ai text).gaps.length
        = max ((if 5 ≤ (extract_skills text).length then 0 else 1)
            + (if containsLower text "lead" || containsLower text "manage" then 0 else 1)
            + (if containsLower text "achieved" || containsLower text "increased"
                 || containsLower text "reduced" || containsLower text "delivered"
               then 0 else 1)
            + (if text.length < 300 then 1 else 0)) 1
      ∧ (analyze_resume_ai text).improvements.length
        = max ((if 5 ≤ (extract_skills text).length then 0 else 1)
            + (if 3 ≤ estimate_experience text then 0 else 1)
            + (if containsLower text "lead" || containsLower text "manage" then 0 else 1)
            + (if containsLower text "achieved" || containsLower text "increased"
                 || containsLower text "reduced" || containsLower text "delivered"
               then 0 else 1)
            + (if text.length < 300 then 1 else 0)) 1 := by
  refine ⟨?_, ?_, ?_⟩ <;>
    · simp only [analyze_resume_ai, orDefault]
      split_ifs <;> simp_all

/-! ### Claim C7: improvement suggestions and priority labels -/

/-- C7 counterexample: on a resume that lacks metrics and is shorter than
500 characters, with a target role supplied, three checks trigger
(metrics, brevity, targeting) and three suggestions are produced, but only
two priority labels: the targeting check appends a suggestion *without* a
priority label, refuting the claimed equality between the number of
priority labels and the number of triggered checks. -/
theorem C7_counterexample :
    (improve_resume_ai "summary python javascript java rust ruby kotlin"
        (some "Data Engineer")).suggestions.length = 3
      ∧ (improve_resume_ai "summary python javascript java rust ruby kotlin"
          (some "Data Engineer")).priority_order.length = 2 := by
  refine ⟨by decide, by decide⟩

/-- C7 (amended): each of the four non-target checks appends a suggestion
*and* a priority label when triggered; the target-role check (triggered by
a non-empty target role) appends only a suggestion.  When nothing at all
triggers, the result is one default suggestion and one default priority
label (via the `max _ 1` below); in particular the number of priority
labels is the number of triggered non-target checks, not of all triggered
checks. -/
theorem C7_suggestion_priority_counts (resume : String)
    (target_role : Option String) :
    (improve_resume_ai resume target_role).priority_order.length
        = max ((if hasMetric resume.data then 0 else 1)
            + (if resume.length < 500 then 1 else 0)
            + (if !(containsLower resume "summary")
                 && !(containsLower resume "objective") then 1 else 0)
            + (if (extract_skills resume).length < 5 then 1 else 0)) 1
      ∧ (improve_resume_ai resume target_role).suggestions.length
        = max ((if hasMetric resume.data then 0 else 1)
            + (if resume.length < 500 then 1 else 0)
            + (if !(containsLower resume "summary")
                 && !(containsLower resume "objective") then 1 else 0)
            + (if (extract_skills resume).length < 5 then 1 else 0)
            + (if targetPresent target_role then 1 else 0)) 1 := by
  constructor <;>
    · simp only [improve_resume_ai]
      split_ifs <;> simp_all

/-! ### Character-case lemmas (for Claim C8)

Lean's `Char.toLower`/`Char.toUpper` shift the ASCII letter ranges by 32 and
fix everything else; these lemmas characterize them and show that every
function of a character that the skill extractor uses is invariant under
case equivalence. -/

theorem char_toNat_inj {c d : Char} (h : c.toNat = d.toNat) : c = d := by
  rw [← Char.ofNat_toNat c, ← Char.ofNat_toNat d, h]

theorem char_toNat_ofNat {n : Nat} (h : n < 55296) : (Char.ofNat n).toNat = n := by
  have hv : n.isValidChar := Or.inl h
  rw [Char.ofNat, dif_pos hv]
  simp [Char.ofNatAux, Char.toNat, UInt32.toNat]

theorem toLower_spec (c : Char) :
    (65 ≤ c.toNat ∧ c.toNat ≤ 90 ∧ (c.toLower).toNat = c.toNat + 32)
      ∨ (¬(65 ≤ c.toNat ∧ c.toNat ≤ 90) ∧ c.toLower = c) := by
  rw [Char.toLower]
  by_cases h : 65 ≤ c.toNat ∧ c.toNat ≤ 90
  · refine Or.inl ⟨h.1, h.2, ?_⟩
    rw [if_pos ⟨h.1, h.2⟩]
    exact char_toNat_ofNat (by omega)
  · refine Or.inr ⟨h, ?_⟩
    rw [if_neg fun hc => h ⟨hc.1, hc.2⟩]

theorem toUpper_spec (c : Char) :
    (97 ≤ c.toNat ∧ c.toNat ≤ 122 ∧ (c.toUpper).toNat = c.toNat - 32)
      ∨ (¬(97 ≤ c.toNat ∧ c.toNat ≤ 122) ∧ c.toUpper = c) := by
  rw [Char.toUpper]
  by_cases h : 97 ≤ c.toNat ∧ c.toNat ≤ 122
  · refine Or.inl ⟨h.1, h.2, ?_⟩
    rw [if_pos ⟨h.1, h.2⟩]
    exact char_toNat_ofNat (by omega)
  · refine Or.inr ⟨h, ?_⟩
    rw [if_neg fun hc => h ⟨hc.1, hc.2⟩]

/-- The two characters related by `caseEq` are equal or an upper/lower pair
of the same ASCII letter. -/
theorem caseEq_cases {c d : Char} (h : caseEq c d = true) :
    c = d ∨ (65 ≤ c.toNat ∧ c.toNat ≤ 90 ∧ d.toNat = c.toNat + 32)
      ∨ (65 ≤ d.toNat ∧ d.toNat ≤ 90 ∧ c.toNat = d.toNat + 32) := by
  have hl : c.toLower = d.toLower := by simpa [caseEq] using h
  rcases toLower_spec c with ⟨hc1, hc2, hc3⟩ | ⟨hc, hc3⟩ <;>
    rcases toLower_spec d with ⟨hd1, hd2, hd3⟩ | ⟨hd, hd3⟩
  · have : c.toNat = d.toNat := by
      have := congrArg Char.toNat hl
      omega
    exact Or.inl (char_toNat_inj this)
  · refine Or.inr (Or.inl ⟨hc1, hc2, ?_⟩)
    have := congrArg Char.toNat hl
    rw [hd3] at this
    omega
  · refine Or.inr (Or.inr ⟨hd1, hd2, ?_⟩)
    have := congrArg Char.toNat hl
    rw [hc3] at this
    omega
  · exact Or.inl (by rw [← hc3, hl, hd3])

theorem caseEq_toUpper {c d : Char} (h : caseEq c d = true) :
    c.toUpper = d.toUpper := by
  rcases caseEq_cases h with rfl | ⟨h1, h2, h3⟩ | ⟨h1, h2, h3⟩
  · rfl
  · have hcu : c.toUpper = c := by
      rcases toUpper_spec c with ⟨a1, _, _⟩ | ⟨_, e⟩
      · omega
      · exact e
    have hdu : d.toUpper = c := by
      rcases toUpper_spec d with ⟨_, _, e⟩ | ⟨a, _⟩
      · exact char_toNat_inj (by omega)
      · omega
    rw [hcu, hdu]
  · have hdu : d.toUpper = d := by
      rcases toUpper_spec d with ⟨a1, _, _⟩ | ⟨_, e⟩
      · omega
      · exact e
    have hcu : c.toUpper = d := by
      rcases toUpper_spec c with ⟨_, _, e⟩ | ⟨a, _⟩
      · exact char_toNat_inj (by omega)
      · omega
    rw [hcu, hdu]

theorem caseEq_asciiAlpha {c d : Char} (h : caseEq c d = true) :
    asciiAlpha c = asciiAlpha d := by
  have hc : asciiAlpha c = true
      ↔ (65 ≤ c.toNat ∧ c.toNat ≤ 90) ∨ (97 ≤ c.toNat ∧ c.toNat ≤ 122) := by
    simp [asciiAlpha]
  have hd : asciiAlpha d = true
      ↔ (65 ≤ d.toNat ∧ d.toNat ≤ 90) ∨ (97 ≤ d.toNat ∧ d.toNat ≤ 122) := by
    simp [asciiAlpha]
  rw [Bool.eq_iff_iff, hc, hd]
  rcases caseEq_cases h with rfl | ⟨h1, h2, h3⟩ | ⟨h1, h2, h3⟩ <;> omega

theorem caseEq_wordChar {c d : Char} (h : caseEq c d = true) :
    wordChar c = wordChar d := by
  have hc : wordChar c = true
      ↔ (65 ≤ c.toNat ∧ c.toNat ≤ 90) ∨ (97 ≤ c.toNat ∧ c.toNat ≤ 122)
        ∨ (48 ≤ c.toNat ∧ c.toNat ≤ 57) ∨ c.toNat = 95 := by
    simp [wordChar, or_assoc]
  have hd : wordChar d = true
      ↔ (65 ≤ d.toNat ∧ d.toNat ≤ 90) ∨ (97 ≤ d.toNat ∧ d.toNat ≤ 122)
        ∨ (48 ≤ d.toNat ∧ d.toNat ≤ 57) ∨ d.toNat = 95 := by
    simp [wordChar, or_assoc]
  rw [Bool.eq_iff_iff, hc, hd]
  rcases caseEq_cases h with rfl | ⟨h1, h2, h3⟩ | ⟨h1, h2, h3⟩ <;> omega

theorem caseEq_toLower {c d : Char} (h : caseEq c d = true) :
    c.toLower = d.toLower := by
  simpa [caseEq] using h

theorem caseEq_symm {c d : Char} (h : caseEq c d = true) : caseEq d c = true := by
  simp only [caseEq, beq_iff_eq] at *
  exact h.symm

/-! ### Scanner decomposition lemmas (for Claim C8) -/

theorem take_app_le {k : Nat} {s r : List Char} (h : k ≤ s.length) :
    (s ++ r).take k = s.take k := by
  induction s generalizing k with
  | nil =>
    have : k = 0 := by simpa using h
    simp [this]
  | cons c cs ih =>
    cases k with
    | zero => rfl
    | succ m => simpa using ih (by simpa using h)

theorem drop_app_le {k : Nat} {s r : List Char} (h : k ≤ s.length) :
    (s ++ r).drop k = s.drop k ++ r := by
  induction s generalizing k with
  | nil =>
    have : k = 0 := by simpa using h
    simp [this]
  | cons c cs ih =>
    cases k with
    | zero => rfl
    | succ m => simpa using ih (by simpa using h)

theorem matchCI_length {a s : List Char} (h : matchCI a s = true) :
    a.length ≤ s.length := by
  induction a generalizing s with
  | nil => simp
  | cons x xs ih =>
    cases s with
    | nil => simp [matchCI] at h
    | cons y ys =>
      simp only [matchCI, Bool.and_eq_true] at h
      simpa using ih h.2

theorem matchCI_of_gt {a s : List Char} (h : s.length < a.length) :
    matchCI a s = false := by
  cases hm : matchCI a s
  · rfl
  · exact absurd (matchCI_length hm) (by omega)

theorem matchCI_append {a s r : List Char} (h : a.length ≤ s.length) :
    matchCI a (s ++ r) = matchCI a s := by
  induction a generalizing s with
  | nil => simp [matchCI]
  | cons x xs ih =>
    cases s with
    | nil => simp at h
    | cons y ys =>
      show (caseEq x y && matchCI xs (ys ++ r)) = (caseEq x y && matchCI xs ys)
      rw [ih (by simpa using h)]

theorem matchCI_extend {a s r : List Char} (h : matchCI a (s ++ r) = true)
    (hgt : s.length < a.length) : matchCI s a = true := by
  induction s generalizing a with
  | nil => simp [matchCI]
  | cons y ys ih =>
    cases a with
    | nil => simp at hgt
    | cons x xs =>
      simp only [List.cons_append, matchCI, Bool.and_eq_true] at h ⊢
      exact ⟨caseEq_symm h.1, ih h.2 (by simpa using Nat.lt_of_succ_lt_succ hgt)⟩

theorem matchCI_symm_of_eq_length {a s : List Char} (h : matchCI a s = true)
    (hl : a.length = s.length) : matchCI s a = true := by
  induction a generalizing s with
  | nil =>
    cases s with
    | nil => rfl
    | cons y ys => simp at hl
  | cons x xs ih =>
    cases s with
    | nil => simp [matchCI] at h
    | cons y ys =>
      simp only [matchCI, Bool.and_eq_true] at h ⊢
      exact ⟨caseEq_symm h.1, ih h.2 (by simpa using hl)⟩

theorem boundary_append {w : Bool} {s r : List Char} (h : s ≠ []) :
    boundary w (s ++ r) = boundary w s := by
  cases s with
  | nil => exact absurd rfl h
  | cons c cs => rfl

theorem lastWord_irrel {s : List Char} (h : s ≠ []) (d d' : Bool) :
    lastWord d s = lastWord d' s := by
  unfold lastWord
  cases hg : s.getLast? with
  | some c => rfl
  | none => exact absurd (List.getLast?_eq_none_iff.mp hg) h

theorem lastWord_append (d : Bool) (x y : List Char) :
    lastWord d (x ++ y) = lastWord (lastWord d x) y := by
  by_cases h : y = []
  · subst h
    simp [lastWord]
  · unfold lastWord
    rw [List.getLast?_append]
    cases hg : y.getLast? with
    | some c => rfl
    | none => exact absurd (List.getLast?_eq_none_iff.mp hg) h

theorem lastWord_cons (d : Bool) (c : Char) (cs : List Char) :
    lastWord d (c :: cs) = lastWord (wordChar c) cs := by
  cases cs with
  | nil => rfl
  | cons e es =>
    have hne : (e :: es : List Char) ≠ [] := by simp
    calc lastWord d (c :: e :: es)
        = lastWord d (e :: es) := by unfold lastWord; rw [List.getLast?_cons_cons]
      _ = lastWord (wordChar c) (e :: es) := lastWord_irrel hne d (wordChar c)

theorem tryAlts_mem {w : Bool} {s : List Char} {alts : List (List Char)}
    {a : List Char} (h : tryAlts w s alts = some a) :
    a ∈ alts ∧ matchCI a s = true := by
  induction alts with
  | nil => simp [tryAlts] at h
  | cons b bs ih =>
    simp only [tryAlts] at h
    split_ifs at h with hc
    · obtain rfl := Option.some.inj h
      simp only [Bool.and_eq_true] at hc
      exact ⟨List.mem_cons_self _ _, hc.1.2⟩
    · rcases ih h with ⟨m, hm⟩
      exact ⟨List.mem_cons_of_mem _ m, hm⟩

theorem tryAlts_append {w : Bool} {s r : List Char} {alts : List (List Char)}
    (hs : s ≠ []) :
    (∀ a ∈ alts, matchCI s a = false) →
    tryAlts w (s ++ r) alts = tryAlts w s alts := by
  induction alts with
  | nil => intro _; rfl
  | cons a as ih =>
    intro hsafe
    have hsa : matchCI s a = false := hsafe a (List.mem_cons_self _ _)
    have hcond : (boundary w (s ++ r) && matchCI a (s ++ r)
        && boundary (lastWord w a) ((s ++ r).drop a.length))
        = (boundary w s && matchCI a s
        && boundary (lastWord w a) (s.drop a.length)) := by
      rcases Nat.lt_trichotomy a.length s.length with hlt | heq | hgt
      · rw [boundary_append hs, matchCI_append (by omega),
          drop_app_le (by omega),
          boundary_append (by rw [Ne, List.drop_eq_nil_iff]; omega)]
      · have hms : matchCI a s = false := by
          cases hm : matchCI a s
          · rfl
          · exact absurd (matchCI_symm_of_eq_length hm heq) (by simp [hsa])
        rw [boundary_append hs, matchCI_append (by omega), hms]
        simp
      · have h1 : matchCI a s = false := matchCI_of_gt hgt
        have h2 : matchCI a (s ++ r) = false := by
          cases hm : matchCI a (s ++ r)
          · rfl
          · exact absurd (matchCI_extend hm hgt) (by simp [hsa])
        rw [boundary_append hs, h1, h2]
        simp
    simp only [tryAlts, hcond]
    split_ifs
    · rfl
    · exact ih fun x hx => hsafe x (List.mem_cons_of_mem _ hx)

theorem scanFuel_nil (p : List (List Char)) (fuel : Nat) (w : Bool) :
    scanFuel p fuel w [] = [] := by
  cases fuel <;> rfl

/-- Unfolding equation for `scanFuel` on a cons cell. -/
theorem scanFuel_cons (p : List (List Char)) (fuel : Nat) (w : Bool)
    (c : Char) (cs : List Char) :
    scanFuel p (fuel + 1) w (c :: cs)
      = match tryAlts w (c :: cs) p with
        | some a =>
          (c :: cs).take a.length
            :: scanFuel p fuel (lastWord w ((c :: cs).take a.length))
                ((c :: cs).drop (a.length.max 1))
        | none => scanFuel p fuel (wordChar c) cs := rfl

/-- `scanFuel` does not depend on the fuel once it covers the input length. -/
theorem scanFuel_fuel (p : List (List Char)) :
    ∀ (f1 : Nat) {f2 : Nat} {s : List Char} {w : Bool},
      s.length ≤ f1 → s.length ≤ f2 →
      scanFuel p f1 w s = scanFuel p f2 w s := by
  intro f1
  induction f1 with
  | zero =>
    intro f2 s w h1 _
    obtain rfl : s = [] := List.eq_nil_of_length_eq_zero (by omega)
    rw [scanFuel_nil, scanFuel_nil]
  | succ f ih =>
    intro f2 s w h1 h2
    cases s with
    | nil => rw [scanFuel_nil, scanFuel_nil]
    | cons c cs =>
      cases f2 with
      | zero => simp at h2
      | succ f2 =>
        have h1' : cs.length + 1 ≤ f + 1 := by simpa using h1
        have h2' : cs.length + 1 ≤ f2 + 1 := by simpa using h2
        have hmax1 : 1 ≤ Nat.max 1 1 := Nat.le_refl 1
        cases htry : tryAlts w (c :: cs) p with
        | none =>
          simp only [scanFuel_cons, htry]
          exact ih (by omega) (by omega)
        | some a =>
          have hmax : 1 ≤ a.length.max 1 := Nat.le_max_right _ 1
          have hd : ((c :: cs).drop (a.length.max 1)).length ≤ f := by
            rw [List.length_drop, List.length_cons]
            omega
          have hd2 : ((c :: cs).drop (a.length.max 1)).length ≤ f2 := by
            rw [List.length_drop, List.length_cons]
            omega
          simp only [scanFuel_cons, htry]
          rw [ih hd hd2]

/-- The key decomposition: scanning `s ++ r` splits at the chunk boundary
when no suffix of `s` is a case-insensitive prefix of an alternative (so no
match can touch the end of `s` or extend past it). -/
theorem scanFuel_append (p : List (List Char)) (hne : ∀ a ∈ p, a ≠ []) :
    ∀ (n : Nat) (s r : List Char) (w : Bool),
      s.length ≤ n →
      (∀ s', s' <:+ s → s' ≠ [] → ∀ a ∈ p, matchCI s' a = false) →
      scanFuel p (s ++ r).length w (s ++ r)
        = scanFuel p s.length w s ++ scanFuel p r.length (lastWord w s) r := by
  intro n
  induction n with
  | zero =>
    intro s r w h1 _
    obtain rfl : s = [] := List.eq_nil_of_length_eq_zero (by omega)
    simp [scanFuel_nil, lastWord]
  | succ m ih =>
    intro s r w h1 hsafe
    cases s with
    | nil => simp [scanFuel_nil, lastWord]
    | cons c cs =>
      have hcs : (c :: cs : List Char) ≠ [] := by simp
      have hmt : ∀ a ∈ p, matchCI (c :: cs) a = false :=
        fun a ha => hsafe _ (List.suffix_refl _) hcs a ha
      have etry : tryAlts w (c :: (cs ++ r)) p = tryAlts w (c :: cs) p := by
        have e := @tryAlts_append w (c :: cs) r p hcs hmt
        simpa using e
      show scanFuel p ((cs ++ r).length + 1) w (c :: (cs ++ r))
          = scanFuel p (cs.length + 1) w (c :: cs)
            ++ scanFuel p r.length (lastWord w (c :: cs)) r
      cases htry : tryAlts w (c :: cs) p with
      | none =>
        simp only [scanFuel_cons, etry, htry]
        have hsafe' : ∀ s', s' <:+ cs → s' ≠ [] → ∀ a ∈ p, matchCI s' a = false :=
          fun s' hsuf => hsafe s' (hsuf.trans (List.suffix_cons c cs))
        have hres := ih cs r (wordChar c) (by simpa using h1) hsafe'
        rw [show (cs ++ r).length = cs.length + r.length by simp] at hres ⊢
        rw [lastWord_cons]
        exact hres
      | some a =>
        obtain ⟨hap, hm⟩ := tryAlts_mem htry
        have hlen : a.length ≤ cs.length + 1 := by
          simpa using matchCI_length hm
        have hlt : a.length < cs.length + 1 := by
          rcases Nat.lt_or_ge a.length (cs.length + 1) with h | h
          · exact h
          · have heq : a.length = (c :: cs).length := by simp; omega
            exact absurd (matchCI_symm_of_eq_length hm heq) (by simp [hmt a hap])
        have hpos : 1 ≤ a.length := by
          have := hne a hap
          cases a with
          | nil => exact absurd rfl this
          | cons x xs => simp
        have hmax : a.length.max 1 = a.length := Nat.max_eq_left hpos
        have htake : (c :: (cs ++ r)).take a.length = (c :: cs).take a.length := by
          have := @take_app_le a.length (c :: cs) r (by simpa using hlen)
          simpa using this
        have hdrop : (c :: (cs ++ r)).drop a.length = (c :: cs).drop a.length ++ r := by
          have := @drop_app_le a.length (c :: cs) r (by simpa using hlen)
          simpa using this
        simp only [scanFuel_cons, etry, htry, hmax, htake, hdrop]
        have hslen : ((c :: cs).drop a.length).length = cs.length + 1 - a.length := by
          rw [List.length_drop]
          simp
        have hsafe' : ∀ s', s' <:+ (c :: cs).drop a.length → s' ≠ [] →
            ∀ b ∈ p, matchCI s' b = false :=
          fun s' hsuf => hsafe s' (hsuf.trans (List.drop_suffix _ _))
        have hih := ih ((c :: cs).drop a.length) r (lastWord w ((c :: cs).take a.length))
          (by
            rw [hslen]
            have h1' : cs.length + 1 ≤ m + 1 := by simpa using h1
            omega) hsafe'
        have hfuel1 : scanFuel p (cs.length + r.length)
            (lastWord w ((c :: cs).take a.length)) ((c :: cs).drop a.length ++ r)
            = scanFuel p ((c :: cs).drop a.length ++ r).length
              (lastWord w ((c :: cs).take a.length)) ((c :: cs).drop a.length ++ r) := by
          apply scanFuel_fuel
          · rw [List.length_append, hslen]
            omega
          · exact Nat.le_refl _
        have hfuel2 : scanFuel p cs.length
            (lastWord w ((c :: cs).take a.length)) ((c :: cs).drop a.length)
            = scanFuel p ((c :: cs).drop a.length).length
              (lastWord w ((c :: cs).take a.length)) ((c :: cs).drop a.length) := by
          apply scanFuel_fuel
          · rw [hslen]; omega
          · exact Nat.le_refl _
        have hlast : lastWord w (c :: cs)
            = lastWord (lastWord w ((c :: cs).take a.length)) ((c :: cs).drop a.length) := by
          conv_lhs => rw [← List.take_append_drop a.length (c :: cs)]
          exact lastWord_append _ _ _
        rw [show (cs ++ r).length = cs.length + r.length by simp, hfuel1, hih,
          hfuel2, hlast]
        simp

/-- Decidable form of the chunk-safety condition. -/
def safeChunkB (p : List (List Char)) (s : List Char) : Bool :=
  s.tails.all fun s' => s'.isEmpty || p.all fun a => !(matchCI s' a)

theorem safeChunkB_spec {p : List (List Char)} {s : List Char}
    (h : safeChunkB p s = true) :
    ∀ s', s' <:+ s → s' ≠ [] → ∀ a ∈ p, matchCI s' a = false := by
  intro s' hsuf hne a ha
  have := (List.all_eq_true.mp h) s' ((List.mem_tails _ _).mpr hsuf)
  simp only [Bool.or_eq_true, List.isEmpty_iff, List.all_eq_true,
    Bool.not_eq_true'] at this
  rcases this with h1 | h2
  · exact absurd h1 hne
  · exact h2 a ha

/-! ### Canonical tokens and the per-token scan facts (Claim C8) -/

/-- The canonical (normalized) skill names: the normalization of each
pattern literal.  Every element `extract_skills` can ever output is in this
list. -/
def canonicalSkills : List String :=
  (skillPatterns.map fun p => p.map fun a => String.mk (normSkill a)).flatten

def lowerData (t : String) : List Char := t.data.map Char.toLower

/-- Space-separated concatenation of character lists. -/
def joinSp : List (List Char) → List Char
  | [] => []
  | [t] => t
  | t :: ts => t ++ ' ' :: joinSp ts

/-- The round-trip input of Claim C8: the lowercased space-separated
concatenation of a skill list. -/
def lowerJoin (l : List String) : String :=
  String.mk ((joinSp (l.map String.data)).map Char.toLower)

/-- Does the lowercased token coincide with a lowercased alternative of the
pattern? -/
def inPatB (p : List (List Char)) (tl : List Char) : Bool :=
  p.any fun a => a.map Char.toLower == tl

/-- Decidable per-token facts: for every canonical token other than
`C++`/`C#` and a given pattern, the lowercased token scans (with and
without a following space) to exactly itself when it belongs to the
pattern and to nothing otherwise, and no nonempty suffix of
token-plus-space is a case-insensitive prefix of any alternative. -/
def tokenFactsB (p : List (List Char)) : Bool :=
  canonicalSkills.all fun t =>
    (t == "C++" || t == "C#")
      || (!(lowerData t).isEmpty
          && safeChunkB p (lowerData t ++ [' '])
          && (scanFuel p (lowerData t ++ [' ']).length false (lowerData t ++ [' '])
              == (if inPatB p (lowerData t) then [lowerData t] else []))
          && (scanFuel p (lowerData t).length false (lowerData t)
              == (if inPatB p (lowerData t) then [lowerData t] else [])))

theorem tokenFacts_get {p : List (List Char)} (hfacts : tokenFactsB p = true)
    {t : String} (hmem : t ∈ canonicalSkills) (h1 : t ≠ "C++") (h2 : t ≠ "C#") :
    (lowerData t) ≠ []
      ∧ (∀ s', s' <:+ (lowerData t ++ [' ']) → s' ≠ [] →
          ∀ a ∈ p, matchCI s' a = false)
      ∧ scanFuel p (lowerData t ++ [' ']).length false (lowerData t ++ [' '])
          = (if inPatB p (lowerData t) then [lowerData t] else [])
      ∧ scanFuel p (lowerData t).length false (lowerData t)
          = (if inPatB p (lowerData t) then [lowerData t] else []) := by
  have h := (List.all_eq_true.mp hfacts) t hmem
  have hne1 : (t == "C++") = false := by simpa using h1
  have hne2 : (t == "C#") = false := by simpa using h2
  rw [hne1, hne2] at h
  simp only [Bool.or_self, Bool.false_or, Bool.and_eq_true, beq_iff_eq,
    Bool.not_eq_true', List.isEmpty_eq_false] at h
  obtain ⟨⟨⟨hA, hB⟩, hC⟩, hD⟩ := h
  exact ⟨hA, safeChunkB_spec hB, hC, hD⟩

theorem tokenFacts_all : ∀ p ∈ skillPatterns, tokenFactsB p = true := by decide

theorem skillPatterns_alts_ne : ∀ p ∈ skillPatterns, ∀ a ∈ p, a ≠ [] := by decide

theorem lastWord_space (d : Bool) (x : List Char) :
    lastWord d (x ++ [' ']) = false := by
  rw [lastWord_append]
  rfl

/-- Scanning the lowercased space-join of canonical tokens (other than
`C++`/`C#`) finds exactly the tokens belonging to the pattern. -/
theorem scan_join (p : List (List Char)) (hfacts : tokenFactsB p = true)
    (hne : ∀ a ∈ p, a ≠ []) :
    ∀ L : List String,
      (∀ t ∈ L, t ∈ canonicalSkills ∧ t ≠ "C++" ∧ t ≠ "C#") →
      scanFuel p (joinSp (L.map lowerData)).length false (joinSp (L.map lowerData))
        = (L.filter fun t => inPatB p (lowerData t)).map lowerData := by
  intro L
  induction L with
  | nil => intro _; rfl
  | cons t ts ih =>
    intro hgood
    obtain ⟨hmem, hC1, hC2⟩ := hgood t (List.mem_cons_self _ _)
    obtain ⟨hne0, hsafe, hspaced, hbare⟩ := tokenFacts_get hfacts hmem hC1 hC2
    cases ts with
    | nil =>
      show scanFuel p (lowerData t).length false (lowerData t) = _
      rw [hbare]
      by_cases hin : inPatB p (lowerData t) <;> simp [List.filter_cons, hin]
    | cons t2 ts2 =>
      have hjoin : joinSp ((t :: t2 :: ts2).map lowerData)
          = (lowerData t ++ [' ']) ++ joinSp ((t2 :: ts2).map lowerData) := by
        show lowerData t ++ ' ' :: joinSp ((t2 :: ts2).map lowerData) = _
        rw [List.append_assoc]
        rfl
      rw [hjoin,
        scanFuel_append p hne (lowerData t ++ [' ']).length _ _ false
          (Nat.le_refl _) hsafe,
        hspaced, lastWord_space,
        ih fun u hu => hgood u (List.mem_cons_of_mem _ hu)]
      by_cases hin : inPatB p (lowerData t) <;> simp [List.filter_cons, hin]

/-! ### Every extracted skill is canonical (Claim C8) -/

theorem matchCI_take {a s : List Char} (h : matchCI a s = true) :
    (s.take a.length).map Char.toLower = a.map Char.toLower := by
  induction a generalizing s with
  | nil => simp
  | cons x xs ih =>
    cases s with
    | nil => simp [matchCI] at h
    | cons y ys =>
      simp only [matchCI, Bool.and_eq_true] at h
      show Char.toLower y :: (ys.take xs.length).map Char.toLower
          = Char.toLower x :: xs.map Char.toLower
      rw [ih h.2, caseEq_toLower (caseEq_symm h.1)]

theorem scan_slices (p : List (List Char)) :
    ∀ (fuel : Nat) (w : Bool) (s m : List Char), m ∈ scanFuel p fuel w s →
      ∃ a ∈ p, m.map Char.toLower = a.map Char.toLower := by
  intro fuel
  induction fuel with
  | zero => intro w s m hm; simp [scanFuel] at hm
  | succ f ih =>
    intro w s m hm
    cases s with
    | nil => rw [scanFuel_nil] at hm; simp at hm
    | cons c cs =>
      cases htry : tryAlts w (c :: cs) p with
      | none =>
        rw [scanFuel_cons, htry] at hm
        exact ih _ _ _ hm
      | some a =>
        rw [scanFuel_cons, htry] at hm
        rcases List.mem_cons.mp hm with rfl | hm2
        · obtain ⟨hap, hmci⟩ := tryAlts_mem htry
          exact ⟨a, hap, matchCI_take hmci⟩
        · exact ih _ _ _ hm2

theorem pyTitleGo_congr : ∀ (fl : Bool) (m a : List Char),
    m.map Char.toLower = a.map Char.toLower → pyTitleGo fl m = pyTitleGo fl a := by
  intro fl m
  induction m generalizing fl with
  | nil =>
    intro a h
    cases a with
    | nil => rfl
    | cons y ys => simp at h
  | cons x xs ih =>
    intro a h
    cases a with
    | nil => simp at h
    | cons y ys =>
      simp only [List.map_cons, List.cons.injEq] at h
      have hceq : caseEq x y = true := by simp [caseEq, h.1]
      have halpha := caseEq_asciiAlpha hceq
      simp only [pyTitleGo, halpha]
      by_cases hal : asciiAlpha y = true
      · rw [if_pos hal, if_pos hal, ih true ys h.2]
        cases fl
        · simp [caseEq_toUpper hceq]
        · simp [caseEq_toLower hceq]
      · have hxy : x = y := by
          rcases caseEq_cases hceq with rfl | ⟨p1, p2, p3⟩ | ⟨p1, p2, p3⟩
          · rfl
          · exact absurd (by simp [asciiAlpha]; omega) hal
          · exact absurd (by simp [asciiAlpha]; omega) hal
        rw [if_neg hal, if_neg hal, ih false ys h.2, hxy]

theorem map_toUpper_congr : ∀ {m a : List Char},
    m.map Char.toLower = a.map Char.toLower →
    m.map Char.toUpper = a.map Char.toUpper := by
  intro m
  induction m with
  | nil =>
    intro a h
    cases a with
    | nil => rfl
    | cons y ys => simp at h
  | cons x xs ih =>
    intro a h
    cases a with
    | nil => simp at h
    | cons y ys =>
      simp only [List.map_cons, List.cons.injEq] at h ⊢
      exact ⟨caseEq_toUpper (by simp [caseEq, h.1]), ih h.2⟩

theorem normSkill_congr {m a : List Char}
    (h : m.map Char.toLower = a.map Char.toLower) :
    normSkill m = normSkill a := by
  have hlen : m.length = a.length := by
    have := congrArg List.length h
    simpa using this
  unfold normSkill
  rw [hlen]
  split_ifs
  · exact pyTitleGo_congr false m a h
  · exact map_toUpper_congr h

theorem extract_skills_mem_canonical {text : String} :
    ∀ s ∈ extract_skills text, s ∈ canonicalSkills := by
  intro s hs
  unfold extract_skills at hs
  have hs1 := List.mem_of_mem_take hs
  rw [List.mem_dedup, List.mem_flatten] at hs1
  obtain ⟨l, hl, hsl⟩ := hs1
  rw [List.mem_map] at hl
  obtain ⟨p, hp, rfl⟩ := hl
  rw [List.mem_map] at hsl
  obtain ⟨m, hm, rfl⟩ := hsl
  obtain ⟨a, hap, heq⟩ := scan_slices p _ _ _ m hm
  rw [show String.mk (normSkill m) = String.mk (normSkill a) by
    rw [normSkill_congr heq]]
  unfold canonicalSkills
  rw [List.mem_flatten]
  exact ⟨_, List.mem_map_of_mem _ hp, List.mem_map_of_mem _ hap⟩

theorem canonical_renorm :
    ∀ t ∈ canonicalSkills, String.mk (normSkill (lowerData t)) = t := by
  decide

theorem canonical_covered :
    ∀ t ∈ canonicalSkills,
      skillPatterns.any (fun p => inPatB p (lowerData t)) = true := by
  decide

theorem joinSp_map_toLower :
    ∀ X : List (List Char),
      (joinSp X).map Char.toLower = joinSp (X.map (List.map Char.toLower)) := by
  intro X
  induction X with
  | nil => rfl
  | cons x xs ih =>
    cases xs with
    | nil => rfl
    | cons y ys =>
      show (x ++ ' ' :: joinSp (y :: ys)).map Char.toLower
          = x.map Char.toLower ++ ' ' :: joinSp ((y :: ys).map (List.map Char.toLower))
      rw [List.map_append, List.map_cons, show Char.toLower ' ' = ' ' from rfl, ih]

/-- Re-extraction from the lowercased space-join of a list of canonical
skills (without `C++`/`C#`) recovers exactly that list as a set. -/
theorem extract_skills_lowerJoin (S : List String)
    (hgood : ∀ t ∈ S, t ∈ canonicalSkills ∧ t ≠ "C++" ∧ t ≠ "C#")
    (hlen : S.length ≤ 20) :
    (extract_skills (lowerJoin S)).toFinset = S.toFinset := by
  have hdata : (lowerJoin S).data = joinSp (S.map lowerData) := by
    show (joinSp (S.map String.data)).map Char.toLower = _
    rw [joinSp_map_toLower, List.map_map]
    rfl
  have hmapped : ∀ p ∈ skillPatterns,
      ((scanP p (lowerJoin S).data).map fun m => String.mk (normSkill m))
        = S.filter fun t => inPatB p (lowerData t) := by
    intro p hp
    have hscan : scanP p (lowerJoin S).data
        = (S.filter fun t => inPatB p (lowerData t)).map lowerData := by
      show scanFuel p ((lowerJoin S).data).length false ((lowerJoin S).data) = _
      rw [hdata]
      exact scan_join p (tokenFacts_all p hp) (skillPatterns_alts_ne p hp) S hgood
    rw [hscan, List.map_map]
    have hid : ∀ t ∈ S.filter (fun t => inPatB p (lowerData t)),
        ((fun m => String.mk (normSkill m)) ∘ lowerData) t = t := by
      intro t ht
      exact canonical_renorm t (hgood t (List.mem_of_mem_filter ht)).1
    rw [List.map_congr_left hid]
    exact List.map_id _
  have hX : extract_skills (lowerJoin S)
      = ((skillPatterns.map fun p =>
          S.filter fun t => inPatB p (lowerData t)).flatten).dedup.take 20 := by
    unfold extract_skills
    rw [List.map_congr_left hmapped]
  have hFmem : ∀ x, x ∈ (skillPatterns.map fun p =>
      S.filter fun t => inPatB p (lowerData t)).flatten ↔ x ∈ S := by
    intro x
    constructor
    · intro hx
      rw [List.mem_flatten] at hx
      obtain ⟨l, hl, hxl⟩ := hx
      rw [List.mem_map] at hl
      obtain ⟨p, hp, rfl⟩ := hl
      exact List.mem_of_mem_filter hxl
    · intro hx
      have hcov := canonical_covered x (hgood x hx).1
      rw [List.any_eq_true] at hcov
      obtain ⟨p, hp, hinp⟩ := hcov
      rw [List.mem_flatten]
      exact ⟨_, List.mem_map_of_mem _ hp, List.mem_filter.mpr ⟨hx, hinp⟩⟩
  have hdlen : ((skillPatterns.map fun p =>
      S.filter fun t => inPatB p (lowerData t)).flatten).dedup.length ≤ 20 := by
    have hnodup := List.nodup_dedup (skillPatterns.map fun p =>
      S.filter fun t => inPatB p (lowerData t)).flatten
    have hsub : ((skillPatterns.map fun p =>
        S.filter fun t => inPatB p (lowerData t)).flatten).dedup.toFinset
        ⊆ S.toFinset := by
      intro a ha
      rw [List.mem_toFinset] at ha ⊢
      exact (hFmem a).mp (List.mem_dedup.mp ha)
    calc ((skillPatterns.map fun p =>
            S.filter fun t => inPatB p (lowerData t)).flatten).dedup.length
        = ((skillPatterns.map fun p =>
            S.filter fun t => inPatB p (lowerData t)).flatten).dedup.toFinset.card :=
          (List.toFinset_card_of_nodup hnodup).symm
      _ ≤ S.toFinset.card := Finset.card_le_card hsub
      _ ≤ S.length := List.toFinset_card_le _
      _ ≤ 20 := hlen
  rw [hX, List.take_of_length_le hdlen]
  ext a
  simp only [List.mem_toFinset, List.mem_dedup]
  exact hFmem a

/-! ### Claim C8: normalization and round-trip of `extract_skills` -/

/-- C8 counterexample: on `"use C++1 and python"` the extractor finds
`C++` (the trailing `\b` holds because a word character follows) and
`Python`; re-running it on the lowercased space-joined output
`"c++ python"` loses `C++`, because there the character after `++` is a
space and the trailing `\b` of the pattern fails.  The round-trip is
therefore not the identity on the extracted set. -/
theorem C8_counterexample :
    extract_skills "use C++1 and python" = ["C++", "Python"]
      ∧ extract_skills (lowerJoin (extract_skills "use C++1 and python"))
          = ["Python"] := by
  refine ⟨by decide, by decide⟩

/-- C8 (amended): every extracted skill is one of the finitely many
case-normalized canonical forms (titlecased when longer than 3 characters,
uppercased otherwise), and for every text whose extracted skills include
neither `C++` nor `C#` (the two tokens ending in a non-word character),
re-running `extract_skills` on the lowercased space-joined output yields
the same set of skills. -/
theorem C8_normalized_roundtrip (text : String) :
    (∀ s ∈ extract_skills text, s ∈ canonicalSkills)
      ∧ ("C++" ∉ extract_skills text → "C#" ∉ extract_skills text →
         (extract_skills (lowerJoin (extract_skills text))).toFinset
           = (extract_skills text).toFinset) := by
  refine ⟨extract_skills_mem_canonical, fun h1 h2 => ?_⟩
  apply extract_skills_lowerJoin
  · intro t ht
    exact ⟨extract_skills_mem_canonical t ht,
      fun he => h1 (he ▸ ht), fun he => h2 (he ▸ ht)⟩
  · unfold extract_skills
    rw [List.length_take]
    exact Nat.min_le_left _ _

theorem C8_witness :
    ("C++" ∉ extract_skills "use rust and python")
      ∧ ("C#" ∉ extract_skills "use rust and python")
      ∧ (extract_skills (lowerJoin (extract_skills "use rust and python"))).toFinset
          = (extract_skills "use rust and python").toFinset :=
  ⟨by decide, by decide,
    (C8_normalized_roundtrip "use rust and python").2 (by decide) (by decide)⟩

end VibeResume
